import Mathlib

/-!
Shallow embedding of the library-management program (`src/xyz.cpp`):
the `Book` record with its text serialization, the generic repository's
save/load against a text file, the controller's startup identity seeding,
and a small step model of the autosave loop and its stop flag.
Strings are modelled as `List Char`; a file's content is a `List Char`
and a missing file is `Option.none`.
-/

/-- Characters stripped by `trim` in the source: `" \t\r\n"`. -/
def isTrimChar (c : Char) : Bool :=
  decide (c = ' ') || decide (c = '\t') || decide (c = '\r') || decide (c = '\n')

/-- Embeds `trim` (src lines 10-15): strips the characters `" \t\r\n"`
from both ends of the string. -/
def trim (s : List Char) : List Char :=
  ((s.dropWhile isTrimChar).reverse.dropWhile isTrimChar).reverse

/-- Embeds `split` (src lines 17-23) and the `while (getline ...)` line loop:
repeated `std::getline` against a delimiter. `getline` fails (producing
nothing) when the stream is already exhausted, so an empty input yields no
fields and a trailing delimiter does not produce a trailing empty field. -/
def splitCpp (delim : Char) : List Char → List (List Char)
  | [] => []
  | c :: rest =>
    if c = delim then [] :: splitCpp delim rest
    else
      match splitCpp delim rest with
      | [] => [[c]]
      | f :: fs => (c :: f) :: fs

/-- Decimal digit characters, as tested by the C++ numeric parsers. -/
def isDigitC (c : Char) : Bool := decide ('0' ≤ c) && decide (c ≤ '9')

/-- Whitespace skipped by `std::stoi` / `std::stoull`
(`std::isspace` in the C locale). -/
def isSpaceC (c : Char) : Bool :=
  decide (c = ' ') || decide (c = '\t') || decide (c = '\n') ||
  decide (c = '\x0b') || decide (c = '\x0c') || decide (c = '\r')

/-- Numeric value of a digit character. -/
def charVal (c : Char) : Nat := c.toNat - 48

/-- Value of a big-endian string of digit characters. -/
def charsVal (l : List Char) : Nat := l.foldl (fun a c => a * 10 + charVal c) 0

/-- Optional single sign character consumed by `std::stoi` / `std::stoull`. -/
def parseSign (s : List Char) : Bool × List Char :=
  match s with
  | [] => (false, [])
  | c :: r =>
    if c = '-' then (true, r)
    else if c = '+' then (false, r)
    else (false, c :: r)

/-- Embeds `std::stoull` (base 10) as used at src line 65: skip leading
whitespace, optional sign, then a maximal run of digits (trailing
non-digits are ignored); fails (`invalid_argument`) when no digit is
found and (`out_of_range`) when the digits exceed `ULLONG_MAX`; a minus
sign wraps the value modulo `2 ^ 64`. -/
def stoull (s : List Char) : Option Nat :=
  let t := s.dropWhile isSpaceC
  let p := parseSign t
  let ds := p.2.takeWhile isDigitC
  if ds.isEmpty then none
  else
    let v := charsVal ds
    if v ≤ 2 ^ 64 - 1 then
      some (if p.1 then (2 ^ 64 - v % 2 ^ 64) % 2 ^ 64 else v)
    else none

/-- Embeds `std::stoi` as used at src line 68: skip leading whitespace,
optional sign, maximal digit run (trailing non-digits ignored); fails
when no digit is found or the signed value falls outside `int`'s range. -/
def stoi (s : List Char) : Option Int :=
  let t := s.dropWhile isSpaceC
  let p := parseSign t
  let ds := p.2.takeWhile isDigitC
  if ds.isEmpty then none
  else
    let v : Int := (charsVal ds : Nat)
    let sv := if p.1 then -v else v
    if sv < -(2 ^ 31) ∨ 2 ^ 31 - 1 < sv then none else some sv

/-- Little-endian decimal digits of `n`, with explicit fuel (adequate as
soon as `n ≤ fuel`); mirrors the digit loop inside `std::to_string`. -/
def toDigitsRev : Nat → Nat → List Nat
  | 0, _ => []
  | fuel + 1, n => if n = 0 then [] else n % 10 :: toDigitsRev fuel (n / 10)

/-- The character for a decimal digit. -/
def digitChar : Nat → Char
  | 0 => '0' | 1 => '1' | 2 => '2' | 3 => '3' | 4 => '4'
  | 5 => '5' | 6 => '6' | 7 => '7' | 8 => '8' | 9 => '9'
  | _ => '?'

/-- Embeds `std::to_string` on an unsigned integer. -/
def natToChars (n : Nat) : List Char :=
  if n = 0 then ['0'] else ((toDigitsRev n n).map digitChar).reverse

/-- Embeds `std::to_string` on a signed integer. -/
def intToChars (y : Int) : List Char :=
  if y < 0 then '-' :: natToChars (-y).toNat else natToChars y.toNat

/-- The `Book` domain record (src lines 26-86). `id_` is
`unsigned long long` (values below `2 ^ 64`), `year_` is `int`
(values in `[-2^31, 2^31)`); free-text fields are arbitrary strings. -/
structure Book where
  id : Nat
  title : List Char
  author : List Char
  year : Int
  checked_out : Bool
deriving DecidableEq

/-- The `safe` lambda inside `Book::serialize` (src lines 54-58):
replaces every `'|'` in a free-text field with `'/'`. -/
def safeField (s : List Char) : List Char :=
  s.map fun c => if c = '|' then '/' else c

/-- Embeds `Book::serialize` (src lines 52-60):
`id|title|author|year|checked` with `'|'`-escaping on title and author. -/
def Book.serialize (b : Book) : List Char :=
  natToChars b.id ++ '|' :: safeField b.title ++ '|' :: safeField b.author ++
    '|' :: intToChars b.year ++ '|' :: [if b.checked_out then '1' else '0']

/-- Embeds `Book::deserialize` (src lines 62-73): split on `'|'`; throw
when fewer than 5 fields, or when `stoull` on field 0 or `stoi` on field 3
throws; the record is checked out exactly when field 4 is the string `"1"`.
Fields past the fifth are ignored. Failure is modelled as `none`. -/
def Book.deserialize (line : List Char) : Option Book :=
  let parts := splitCpp '|' line
  if parts.length < 5 then none
  else
    match stoull (parts.getD 0 []) with
    | none => none
    | some id =>
      match stoi (parts.getD 3 []) with
      | none => none
      | some y =>
        some ⟨id, parts.getD 1 [], parts.getD 2 [], y,
          decide (parts.getD 4 [] = ['1'])⟩

/-- The repository state: the `items_` vector of `Repository<Book>`
(src line 162), in insertion order. -/
structure Repository where
  items : List Book
deriving DecidableEq

/-- The message thrown by `Repository::save_to_file` when the sink cannot
be opened (src line 139). -/
def saveErrorMsg : List Char := ( "Failed to open file for writing" ).data

/-- The bytes `save_to_file` writes: each record's serialization followed
by a newline, in iteration order (src line 140). -/
def saveOutput (items : List Book) : List Char :=
  (items.map fun b => b.serialize ++ ['\n']).flatten

/-- Embeds `Repository::save_to_file` (src lines 136-141): throws when the
sink cannot be opened for writing; otherwise writes every record, one
serialized line plus `'\n'` each, in insertion order. The repository state
is returned unchanged alongside the written bytes. -/
def saveToFile (writable : Bool) (r : Repository) :
    Except (List Char) (Repository × List Char) :=
  if writable then Except.ok (r, saveOutput r.items) else Except.error saveErrorMsg

/-- Content of the persisted file after a save against a file that
previously held `prior`: opening with `ios::trunc` discards the prior
content on success; a failed open leaves the file untouched. -/
def fileAfterSave (prior : List Char) (writable : Bool) (r : Repository) :
    List Char :=
  match saveToFile writable r with
  | Except.ok p => p.2
  | Except.error _ => prior

/-- One iteration of the `while (getline ...)` body in
`Repository::load_from_file` (src lines 149-158): trim the line, skip it
when blank, otherwise append the parsed record or count one warning. -/
def loadStep (acc : List Book × Nat) (line : List Char) : List Book × Nat :=
  let t := trim line
  if t = [] then acc
  else
    match Book.deserialize t with
    | some b => (acc.1 ++ [b], acc.2)
    | none => (acc.1, acc.2 + 1)

/-- Embeds `Repository::load_from_file` (src lines 143-159). A missing
source (`none`) returns before touching the items, leaving the prior
contents and producing no warning; an existing source first clears the
items, then processes each line. Result: final items and warning count. -/
def loadFromFile (source : Option (List Char)) (prior : List Book) :
    List Book × Nat :=
  match source with
  | none => (prior, 0)
  | some content => (splitCpp '\n' content).foldl loadStep ([], 0)

/-- The next-identity seeding loop in the `Library` constructor
(src lines 171-173): start at 1 and bump to `id + 1` whenever a loaded
record's identity is at least the current counter. -/
def computeNextId (items : List Book) : Nat :=
  items.foldl (fun nid b => if nid ≤ b.id then b.id + 1 else nid) 1

/-- The observable state of `Library`'s constructor (src lines 169-174):
load the database file into an empty repository, then seed the counter.
Returns (loaded items, warning count, next identity). -/
def libraryInit (dbContent : Option (List Char)) : List Book × Nat × Nat :=
  let r := loadFromFile dbContent []
  (r.1, r.2, computeNextId r.1)

/-- The operational model of the autosave thread (src lines 176-185)
together with the stop flag set by the destructor (src line 189).
`PC.check` is the `while (!stop_autosave_.load())` test, `PC.sleepSave`
is the body (sleep, then one `save()`), `PC.done` is loop exit. -/
inductive PC
  | check
  | sleepSave
  | done
deriving DecidableEq

/-- State of the autosave loop: control point, the `stop_autosave_` flag,
the total number of `save()` calls performed, and how many of those were
performed after the flag was already set. -/
structure LoopState where
  pc : PC
  stopFlag : Bool
  saves : Nat
  savesAfterStop : Nat
deriving DecidableEq

/-- The two events of the shutdown interleaving: `tick` lets the autosave
thread run to its next blocking point; `setStop` is the destructor's
`stop_autosave_.store(true)` (src line 189). -/
inductive Act
  | tick
  | setStop
deriving DecidableEq

/-- One step of the interleaved execution of the autosave loop and the
destructor's flag store. -/
def loopStep (s : LoopState) : Act → LoopState
  | Act.setStop => { s with stopFlag := true }
  | Act.tick =>
    match s.pc with
    | PC.check => if s.stopFlag then { s with pc := PC.done } else { s with pc := PC.sleepSave }
    | PC.sleepSave =>
      { s with
        pc := PC.check
        saves := s.saves + 1
        savesAfterStop := s.savesAfterStop + (if s.stopFlag then 1 else 0) }
    | PC.done => s

/-- The loop starts at the `while` test with the flag clear. -/
def loopInit : LoopState := ⟨PC.check, false, 0, 0⟩

/-- Executes a schedule of interleaved events from the initial state. -/
def loopRun (acts : List Act) : LoopState := acts.foldl loopStep loopInit

/-- Modelled from the spec: the tail of `Library::~Library` is truncated in
the source after `stop_autosave_.store(true); if (autosave_thread_.joinable()) autosa…`;
per the spec's shutdown protocol the destructor joins the autosave thread
and performs no further save. Join completion corresponds to the loop
having reached `PC.done`. -/
def joined (s : LoopState) : Prop := s.pc = PC.done

/-- The record a round trip through `serialize`/`deserialize` is expected
to produce: identity, year and checked state unchanged, free-text fields
with `'|'` replaced by `'/'`. -/
def expectedRoundTrip (b : Book) : Book :=
  ⟨b.id, safeField b.title, safeField b.author, b.year, b.checked_out⟩

/-- A name for the entry books used in concrete examples below. -/
def exBook1 : Book := ⟨5, ( "t" ).data, ( "a" ).data, 1999, false⟩

/-- Concrete persisted content with identities 3, 7, 2. -/
def exDb372 : List Char := ( "3|t|a|2000|0\n7|t|a|2000|0\n2|t|a|2000|0\n" ).data

/-- A well-formed persisted line. -/
def exGood : List Char := ( "1|t|a|2|0" ).data

/-- A malformed persisted line (only two fields). -/
def exBad : List Char := ( "x|y" ).data

/-- The record encoded by `exGood`. -/
def exBook3 : Book := ⟨1, ( "t" ).data, ( "a" ).data, 2, false⟩

/-- A line with six fields and a garbage fifth field. -/
def exLine9 : List Char := ( "7|x|y|1999|true|EXTRA" ).data

/-- A book whose title contains an embedded newline. -/
def newlineBook : Book := ⟨1, 'a' :: '\n' :: ['b'], [], 0, false⟩

/-- A book with the delimiter inside both free-text fields. -/
def pipeBook : Book := ⟨12, ( "a|b" ).data, ( "c|d" ).data, -3, true⟩

-- ### Helper lemmas on splitting, trimming and digit strings

theorem splitCpp_append (d : Char) (x rest : List Char) (hx : d ∉ x) :
    splitCpp d (x ++ d :: rest) = x :: splitCpp d rest := by
  induction x with
  | nil => simp [splitCpp]
  | cons c x ih =>
    have hcd : ¬c = d := by rintro rfl; exact hx (List.mem_cons_self _ _)
    have hx' : d ∉ x := fun h => hx (List.mem_cons_of_mem _ h)
    rw [List.cons_append]
    rw [splitCpp, if_neg hcd, ih hx']

theorem dropWhile_eq_self_of_head (p : Char → Bool) (l : List Char)
    (h : ∀ c, l.head? = some c → p c = false) : l.dropWhile p = l := by
  cases l with
  | nil => rfl
  | cons a t => simp [List.dropWhile_cons, h a rfl]

theorem trim_eq_self (s : List Char)
    (h1 : ∀ c, s.head? = some c → isTrimChar c = false)
    (h2 : ∀ c, s.getLast? = some c → isTrimChar c = false) : trim s = s := by
  unfold trim
  rw [dropWhile_eq_self_of_head _ _ h1]
  rw [dropWhile_eq_self_of_head _ _
    (fun c hc => h2 c (by rwa [List.head?_reverse] at hc))]
  exact List.reverse_reverse s

theorem takeWhile_eq_self (p : Char → Bool) (l : List Char)
    (h : ∀ c ∈ l, p c = true) : l.takeWhile p = l := by
  induction l with
  | nil => rfl
  | cons a t ih =>
    rw [List.takeWhile_cons, h a (List.mem_cons_self _ _)]
    simp [ih fun c hc => h c (List.mem_cons_of_mem _ hc)]

theorem toDigitsRev_eq_digits : ∀ f n : Nat, n ≤ f → toDigitsRev f n = Nat.digits 10 n := by
  intro f
  induction f with
  | zero =>
    intro n h
    have : n = 0 := by omega
    subst this
    simp [toDigitsRev]
  | succ f ih =>
    intro n h
    by_cases h0 : n = 0
    · subst h0; simp [toDigitsRev]
    · rw [toDigitsRev, if_neg h0,
        ih (n / 10) (by have := Nat.div_lt_self (Nat.pos_of_ne_zero h0) (by norm_num : 1 < 10); omega),
        ← Nat.digits_def' (by norm_num : 1 < 10) (Nat.pos_of_ne_zero h0)]

theorem natToChars_eq (n : Nat) :
    natToChars n = if n = 0 then ['0'] else ((Nat.digits 10 n).map digitChar).reverse := by
  unfold natToChars
  rw [toDigitsRev_eq_digits n n le_rfl]

theorem digitChar_isDigit (d : Nat) (h : d < 10) : isDigitC (digitChar d) = true := by
  interval_cases d <;> decide

theorem charVal_digitChar (d : Nat) (h : d < 10) : charVal (digitChar d) = d := by
  interval_cases d <;> decide

theorem natToChars_all_digit (n : Nat) : ∀ c ∈ natToChars n, isDigitC c = true := by
  intro c hc
  rw [natToChars_eq] at hc
  by_cases h0 : n = 0
  · rw [if_pos h0] at hc
    simp at hc
    subst hc
    decide
  · rw [if_neg h0] at hc
    rw [List.mem_reverse, List.mem_map] at hc
    obtain ⟨d, hd, rfl⟩ := hc
    exact digitChar_isDigit d (Nat.digits_lt_base (by norm_num) hd)

theorem natToChars_ne_nil (n : Nat) : natToChars n ≠ [] := by
  rw [natToChars_eq]
  by_cases h0 : n = 0
  · simp [h0]
  · simp [h0, Nat.digits_ne_nil_iff_ne_zero.mpr h0]

theorem charsVal_append_singleton (l : List Char) (c : Char) :
    charsVal (l ++ [c]) = charsVal l * 10 + charVal c := by
  simp [charsVal, List.foldl_append]

theorem charsVal_rev_map (ds : List Nat) (h : ∀ d ∈ ds, d < 10) :
    charsVal ((ds.map digitChar).reverse) = Nat.ofDigits 10 ds := by
  induction ds with
  | nil => rfl
  | cons d ds ih =>
    rw [List.map_cons, List.reverse_cons, charsVal_append_singleton,
      ih fun x hx => h x (List.mem_cons_of_mem _ hx),
      charVal_digitChar d (h d (List.mem_cons_self _ _)), Nat.ofDigits_cons]
    omega

theorem charsVal_natToChars (n : Nat) : charsVal (natToChars n) = n := by
  rw [natToChars_eq]
  by_cases h0 : n = 0
  · rw [if_pos h0, h0]; decide
  · rw [if_neg h0, charsVal_rev_map _ fun d hd => Nat.digits_lt_base (by norm_num) hd,
      Nat.ofDigits_digits]

theorem isDigitC_props (c : Char) (h : isDigitC c = true) :
    isSpaceC c = false ∧ isTrimChar c = false ∧ c ≠ '-' ∧ c ≠ '+' ∧
      c ≠ '|' ∧ c ≠ '\n' := by
  refine ⟨?_, ?_, ?_, ?_, ?_, ?_⟩
  · cases hs : isSpaceC c with
    | false => rfl
    | true =>
      exfalso
      simp only [isSpaceC, Bool.or_eq_true, decide_eq_true_eq] at hs
      have hs' : c = ' ' ∨ c = '\t' ∨ c = '\n' ∨ c = '\x0b' ∨ c = '\x0c' ∨ c = '\r' := by
        tauto
      rcases hs' with rfl | rfl | rfl | rfl | rfl | rfl <;> exact absurd h (by decide)
  · cases hs : isTrimChar c with
    | false => rfl
    | true =>
      exfalso
      simp only [isTrimChar, Bool.or_eq_true, decide_eq_true_eq] at hs
      have hs' : c = ' ' ∨ c = '\t' ∨ c = '\r' ∨ c = '\n' := by tauto
      rcases hs' with rfl | rfl | rfl | rfl <;> exact absurd h (by decide)
  · rintro rfl; exact absurd h (by decide)
  · rintro rfl; exact absurd h (by decide)
  · rintro rfl; exact absurd h (by decide)
  · rintro rfl; exact absurd h (by decide)

theorem parseSign_no_sign (c : Char) (r : List Char) (h1 : ¬c = '-') (h2 : ¬c = '+') :
    parseSign (c :: r) = (false, c :: r) := by
  simp [parseSign, h1, h2]

theorem stoull_natToChars (n : Nat) (h : n < 2 ^ 64) :
    stoull (natToChars n) = some n := by
  obtain ⟨a, as, ha⟩ : ∃ a as, natToChars n = a :: as := by
    cases hn : natToChars n with
    | nil => exact absurd hn (natToChars_ne_nil n)
    | cons a as => exact ⟨a, as, rfl⟩
  have hall : ∀ c ∈ a :: as, isDigitC c = true := fun c hc =>
    natToChars_all_digit n c (ha ▸ hc)
  have had := hall a (List.mem_cons_self _ _)
  have hprops := isDigitC_props a had
  have hval : charsVal (a :: as) = n := by rw [← ha, charsVal_natToChars]
  have hds : (a :: as).dropWhile isSpaceC = a :: as := by
    rw [List.dropWhile_cons, hprops.1]
    simp
  have hps : parseSign (a :: as) = (false, a :: as) :=
    parseSign_no_sign a as hprops.2.2.1 hprops.2.2.2.1
  have htw : (a :: as).takeWhile isDigitC = a :: as := takeWhile_eq_self isDigitC _ hall
  rw [ha]
  simp only [stoull, hds, hps, htw, hval]
  simp only [List.isEmpty_cons, Bool.false_eq_true, if_false]
  rw [if_pos (by omega : n ≤ 2 ^ 64 - 1)]

theorem stoi_intToChars (y : Int) (h1 : -(2 ^ 31) ≤ y) (h2 : y ≤ 2 ^ 31 - 1) :
    stoi (intToChars y) = some y := by
  by_cases hneg : y < 0
  · have hm : ((-y).toNat : Int) = -y := Int.toNat_of_nonneg (by omega)
    unfold intToChars
    rw [if_pos hneg]
    obtain ⟨a, as, ha⟩ : ∃ a as, natToChars (-y).toNat = a :: as := by
      cases hn : natToChars (-y).toNat with
      | nil => exact absurd hn (natToChars_ne_nil _)
      | cons a as => exact ⟨a, as, rfl⟩
    have hall : ∀ c ∈ a :: as, isDigitC c = true := fun c hc =>
      natToChars_all_digit _ c (ha ▸ hc)
    have hval : charsVal (a :: as) = (-y).toNat := by rw [← ha, charsVal_natToChars]
    have hsm : isSpaceC '-' = false := by decide
    have hds : ('-' :: a :: as).dropWhile isSpaceC = '-' :: a :: as := by
      rw [List.dropWhile_cons, hsm]
      simp
    have hps : parseSign ('-' :: a :: as) = (true, a :: as) := by simp [parseSign]
    have htw : (a :: as).takeWhile isDigitC = a :: as := takeWhile_eq_self isDigitC _ hall
    rw [ha]
    simp only [stoi, hds, hps, htw, hval]
    simp only [List.isEmpty_cons, Bool.false_eq_true, if_false, if_true]
    rw [if_neg (by omega), hm]
    simp
  · have hy0 : 0 ≤ y := by omega
    have hm : (y.toNat : Int) = y := Int.toNat_of_nonneg hy0
    unfold intToChars
    rw [if_neg hneg]
    obtain ⟨a, as, ha⟩ : ∃ a as, natToChars y.toNat = a :: as := by
      cases hn : natToChars y.toNat with
      | nil => exact absurd hn (natToChars_ne_nil _)
      | cons a as => exact ⟨a, as, rfl⟩
    have hall : ∀ c ∈ a :: as, isDigitC c = true := fun c hc =>
      natToChars_all_digit _ c (ha ▸ hc)
    have had := hall a (List.mem_cons_self _ _)
    have hprops := isDigitC_props a had
    have hval : charsVal (a :: as) = y.toNat := by rw [← ha, charsVal_natToChars]
    have hds : (a :: as).dropWhile isSpaceC = a :: as := by
      rw [List.dropWhile_cons, hprops.1]
      simp
    have hps : parseSign (a :: as) = (false, a :: as) :=
      parseSign_no_sign a as hprops.2.2.1 hprops.2.2.2.1
    have htw : (a :: as).takeWhile isDigitC = a :: as := takeWhile_eq_self isDigitC _ hall
    rw [ha]
    simp only [stoi, hds, hps, htw, hval]
    simp only [List.isEmpty_cons, Bool.false_eq_true, if_false]
    rw [if_neg (by omega), hm]

theorem serialize_exists_cons (b : Book) :
    ∃ a t_, Book.serialize b = a :: t_ ∧ isDigitC a = true := by
  obtain ⟨a, as, ha⟩ : ∃ a as, natToChars b.id = a :: as := by
    cases hn : natToChars b.id with
    | nil => exact absurd hn (natToChars_ne_nil _)
    | cons a as => exact ⟨a, as, rfl⟩
  refine ⟨a, as ++ '|' :: safeField b.title ++ '|' :: safeField b.author ++
    '|' :: intToChars b.year ++ '|' :: [if b.checked_out then '1' else '0'], ?_, ?_⟩
  · rw [Book.serialize, ha]
    simp [List.append_assoc]
  · exact natToChars_all_digit b.id a (ha ▸ List.mem_cons_self _ _)

theorem serialize_ne_nil (b : Book) : Book.serialize b ≠ [] := by
  obtain ⟨a, t_, ht, _⟩ := serialize_exists_cons b
  rw [ht]
  exact List.cons_ne_nil a t_

theorem serialize_getLast (b : Book) :
    (Book.serialize b).getLast? = some (if b.checked_out then '1' else '0') := by
  rw [← List.head?_reverse]
  rw [Book.serialize]
  simp [List.reverse_append, List.reverse_cons]

theorem trim_serialize (b : Book) : trim (Book.serialize b) = Book.serialize b := by
  obtain ⟨a, t_, ht, ha⟩ := serialize_exists_cons b
  apply trim_eq_self
  · intro c hc
    rw [ht] at hc
    simp only [List.head?_cons, Option.some.injEq] at hc
    subst hc
    exact (isDigitC_props a ha).2.1
  · intro c hc
    rw [serialize_getLast b] at hc
    simp only [Option.some.injEq] at hc
    subst hc
    cases b.checked_out <;> decide

theorem safeField_no_pipe (s : List Char) : '|' ∉ safeField s := by
  intro hm
  rw [safeField, List.mem_map] at hm
  obtain ⟨x, _, hx⟩ := hm
  by_cases hp : x = '|'
  · rw [if_pos hp] at hx
    exact absurd hx (by decide)
  · rw [if_neg hp] at hx
    exact hp hx

theorem mem_safeField_of_newline (s : List Char) (hm : '\n' ∈ safeField s) : '\n' ∈ s := by
  rw [safeField, List.mem_map] at hm
  obtain ⟨x, hxs, hx⟩ := hm
  by_cases hp : x = '|'
  · rw [if_pos hp] at hx
    exact absurd hx (by decide)
  · rw [if_neg hp] at hx
    exact hx ▸ hxs

theorem intToChars_mem (y : Int) : ∀ c ∈ intToChars y, isDigitC c = true ∨ c = '-' := by
  intro c hc
  rw [intToChars] at hc
  by_cases hy : y < 0
  · rw [if_pos hy] at hc
    rcases List.mem_cons.mp hc with rfl | hc'
    · exact Or.inr rfl
    · exact Or.inl (natToChars_all_digit _ c hc')
  · rw [if_neg hy] at hc
    exact Or.inl (natToChars_all_digit _ c hc)

theorem pipe_not_mem_natToChars (n : Nat) : '|' ∉ natToChars n := fun hm =>
  (isDigitC_props '|' (natToChars_all_digit n '|' hm)).2.2.2.2.1 rfl

theorem pipe_not_mem_intToChars (y : Int) : '|' ∉ intToChars y := by
  intro hm
  rcases intToChars_mem y '|' hm with hd | hd
  · exact (isDigitC_props '|' hd).2.2.2.2.1 rfl
  · exact absurd hd (by decide)


theorem splitCpp_serialize (b : Book) :
    splitCpp '|' (Book.serialize b) =
      [natToChars b.id, safeField b.title, safeField b.author, intToChars b.year,
        [if b.checked_out then '1' else '0']] := by
  rw [Book.serialize]
  simp only [List.append_assoc, List.cons_append]
  rw [splitCpp_append '|' _ _ (pipe_not_mem_natToChars b.id)]
  rw [splitCpp_append '|' _ _ (safeField_no_pipe b.title)]
  rw [splitCpp_append '|' _ _ (safeField_no_pipe b.author)]
  rw [splitCpp_append '|' _ _ (pipe_not_mem_intToChars b.year)]
  cases b.checked_out <;> rfl

theorem serialize_mem (b : Book) (c : Char) (hc : c ∈ Book.serialize b) :
    c ∈ natToChars b.id ∨ c = '|' ∨ c ∈ safeField b.title ∨ c ∈ safeField b.author ∨
      c ∈ intToChars b.year ∨ c = (if b.checked_out = true then '1' else '0') := by
  rw [Book.serialize] at hc
  simp only [List.mem_append, List.mem_cons, List.mem_singleton, List.not_mem_nil] at hc
  tauto

theorem serialize_no_newline (b : Book) (ht : '\n' ∉ b.title) (ha : '\n' ∉ b.author) :
    '\n' ∉ Book.serialize b := by
  intro hm
  rcases serialize_mem b '\n' hm with hc | hc | hc | hc | hc | hc
  · exact (isDigitC_props _ (natToChars_all_digit _ _ hc)).2.2.2.2.2 rfl
  · exact absurd hc (by decide)
  · exact ht (mem_safeField_of_newline _ hc)
  · exact ha (mem_safeField_of_newline _ hc)
  · rcases intToChars_mem _ _ hc with hd | hd
    · exact (isDigitC_props _ hd).2.2.2.2.2 rfl
    · exact absurd hd (by decide)
  · cases hcb : b.checked_out <;> rw [hcb] at hc <;> exact absurd hc (by decide)


theorem deserialize_serialize (b : Book) (hid : b.id < 2 ^ 64)
    (h1 : -(2 ^ 31) ≤ b.year) (h2 : b.year ≤ 2 ^ 31 - 1) :
    Book.deserialize (Book.serialize b) = some (expectedRoundTrip b) := by
  simp only [Book.deserialize, splitCpp_serialize]
  simp only [List.length_cons, List.length_nil, List.getD_cons_zero, List.getD_cons_succ]
  rw [if_neg (by omega)]
  simp only [stoull_natToChars b.id hid, stoi_intToChars b.year h1 h2]
  rw [expectedRoundTrip]
  cases hcb : b.checked_out <;> simp [hcb]

theorem splitCpp_saveOutput (items : List Book)
    (h : ∀ b ∈ items, '\n' ∉ Book.serialize b) :
    splitCpp '\n' (saveOutput items) = items.map Book.serialize := by
  induction items with
  | nil => rfl
  | cons b l ih =>
    have hcons : saveOutput (b :: l) = Book.serialize b ++ '\n' :: saveOutput l := by
      simp [saveOutput]
    rw [hcons, splitCpp_append '\n' _ _ (h b (List.mem_cons_self _ _)),
      ih fun x hx => h x (List.mem_cons_of_mem _ hx), List.map_cons]

theorem loadStep_serialize (acc : List Book × Nat) (b : Book) (hid : b.id < 2 ^ 64)
    (h1 : -(2 ^ 31) ≤ b.year) (h2 : b.year ≤ 2 ^ 31 - 1) :
    loadStep acc (Book.serialize b) = (acc.1 ++ [expectedRoundTrip b], acc.2) := by
  rw [loadStep]
  simp only [trim_serialize]
  rw [if_neg (serialize_ne_nil b), deserialize_serialize b hid h1 h2]

theorem load_fold (items : List Book)
    (hh : ∀ b ∈ items, b.id < 2 ^ 64 ∧ -(2 ^ 31) ≤ b.year ∧ b.year ≤ 2 ^ 31 - 1) :
    ∀ acc : List Book × Nat,
      (items.map Book.serialize).foldl loadStep acc =
        (acc.1 ++ items.map expectedRoundTrip, acc.2) := by
  induction items with
  | nil => intro acc; simp
  | cons b l ih =>
    intro acc
    obtain ⟨hid, hy1, hy2⟩ := hh b (List.mem_cons_self _ _)
    rw [List.map_cons, List.foldl_cons, loadStep_serialize acc b hid hy1 hy2,
      ih (fun x hx => hh x (List.mem_cons_of_mem _ hx)) _, List.map_cons]
    simp

/-- Invariant of the interleaved shutdown execution: saves performed after
the stop flag never exceed one, none exist while the flag is clear, and
none exist while the loop still sits before its save. -/
def LoopInv (s : LoopState) : Prop :=
  (s.stopFlag = false → s.savesAfterStop = 0) ∧
  (s.pc = PC.sleepSave → s.savesAfterStop = 0) ∧
  s.savesAfterStop ≤ 1

theorem loopStep_inv (s : LoopState) (a : Act) (h : LoopInv s) : LoopInv (loopStep s a) := by
  obtain ⟨pc, flag, sv, sa⟩ := s
  obtain ⟨h1, h2, h3⟩ := h
  cases a with
  | setStop =>
    refine ⟨?_, ?_, h3⟩
    · intro hf; exact absurd hf (by simp [loopStep])
    · intro hf; exact h2 hf
  | tick =>
    cases pc with
    | check =>
      cases flag with
      | false =>
        refine ⟨?_, ?_, h3⟩
        · intro _; exact h1 rfl
        · intro _; exact h1 rfl
      | true =>
        refine ⟨?_, ?_, h3⟩
        · intro hf; exact absurd hf (by simp [loopStep])
        · intro hf; exact absurd hf (by simp [loopStep])
    | sleepSave =>
      have hsa : sa = 0 := h2 rfl
      subst hsa
      cases flag with
      | false =>
        refine ⟨?_, ?_, ?_⟩ <;> simp [loopStep]
      | true =>
        refine ⟨?_, ?_, ?_⟩ <;> simp [loopStep]
    | done => exact ⟨h1, h2, h3⟩

theorem loopInv_foldl (acts : List Act) : ∀ s : LoopState, LoopInv s →
    LoopInv (acts.foldl loopStep s) := by
  induction acts with
  | nil => intro s h; exact h
  | cons a l ih => intro s h; exact ih _ (loopStep_inv s a h)

theorem loopStep_done (s : LoopState) (a : Act) (h : s.pc = PC.done) :
    (loopStep s a).pc = PC.done ∧ (loopStep s a).saves = s.saves := by
  obtain ⟨pc, flag, sv, sa⟩ := s
  cases pc with
  | check => exact absurd h (by simp)
  | sleepSave => exact absurd h (by simp)
  | done =>
    cases a with
    | setStop => exact ⟨rfl, rfl⟩
    | tick => exact ⟨rfl, rfl⟩

theorem foldl_done (post : List Act) : ∀ s : LoopState, s.pc = PC.done →
    (post.foldl loopStep s).pc = PC.done ∧ (post.foldl loopStep s).saves = s.saves := by
  induction post with
  | nil => intro s h; exact ⟨h, rfl⟩
  | cons a l ih =>
    intro s h
    obtain ⟨hp, hs⟩ := loopStep_done s a h
    obtain ⟨hp', hs'⟩ := ih _ hp
    exact ⟨hp', hs'.trans hs⟩

theorem stop_two_ticks (s : LoopState) :
    (([Act.setStop, Act.tick, Act.tick]).foldl loopStep s).pc = PC.done := by
  obtain ⟨pc, flag, sv, sa⟩ := s
  cases pc <;> rfl

theorem computeNextId_foldl (l : List Book) : ∀ a : Nat,
    l.foldl (fun nid b => if nid ≤ b.id then b.id + 1 else nid) a =
      max a ((l.map fun b => b.id + 1).foldr max 0) := by
  induction l with
  | nil => intro a; simp
  | cons b l ih =>
    intro a
    simp only [List.foldl_cons, List.map_cons, List.foldr_cons]
    rw [ih]
    have hstep : (if a ≤ b.id then b.id + 1 else a) = max a (b.id + 1) := by
      split <;> omega
    rw [hstep, Nat.max_assoc]

theorem foldr_max_succ (l : List Book) :
    ((l.map fun b => b.id + 1).foldr max 0) =
      if l = [] then 0 else 1 + ((l.map Book.id).foldr max 0) := by
  induction l with
  | nil => rfl
  | cons b l ih =>
    simp only [List.map_cons, List.foldr_cons, ih]
    by_cases hl : l = []
    · subst hl; simp; omega
    · simp only [hl, if_false, List.cons_ne_nil]
      omega

theorem computeNextId_eq (l : List Book) :
    computeNextId l = 1 + ((l.map Book.id).foldr max 0) := by
  rw [computeNextId, computeNextId_foldl, foldr_max_succ]
  by_cases hl : l = []
  · subst hl; simp
  · simp only [hl, if_false]
    omega

theorem deserialize_nil : Book.deserialize [] = none := rfl

-- ### Claim theorems

/-- C1 (amended): for every record sequence whose free-text fields contain
no newline character (and whose numeric fields fit their C++ types),
loading the bytes written by a save yields records with the same
identities and field values, except that `'|'` inside title or author
comes back as `'/'`. -/
theorem c1_round_trip (items prior : List Book)
    (hid : ∀ b ∈ items, b.id < 2 ^ 64)
    (hyear : ∀ b ∈ items, -(2 ^ 31) ≤ b.year ∧ b.year ≤ 2 ^ 31 - 1)
    (hfields : ∀ b ∈ items, '\n' ∉ b.title ∧ '\n' ∉ b.author) :
    loadFromFile (some (saveOutput items)) prior = (items.map expectedRoundTrip, 0) := by
  show (splitCpp '\n' (saveOutput items)).foldl loadStep ([], 0) = _
  rw [splitCpp_saveOutput items fun b hb =>
    serialize_no_newline b (hfields b hb).1 (hfields b hb).2]
  rw [load_fold items (fun b hb => ⟨hid b hb, hyear b hb⟩) ([], 0)]
  simp

/-- C1 witness: a record with `'|'` in both free-text fields round-trips
to the `'/'`-substituted record. -/
theorem c1_round_trip_witness :
    loadFromFile (some (saveOutput [pipeBook])) [exBook1] =
      ([expectedRoundTrip pipeBook], 0) :=
  c1_round_trip [pipeBook] [exBook1] (by decide) (by decide) (by decide)

/-- C1 counterexample: for a record whose title contains a newline the
round trip loses the record entirely, so the claim does not hold for
every sequence of records. -/
theorem c1_counterexample :
    ((loadFromFile (some (saveOutput [newlineBook])) []).1.map Book.id) ≠
      [newlineBook.id] := by
  decide

/-- C2 (amended): after the stop flag is set, the loop performs at most
one further save (the iteration already past its flag check), once the
loop has exited no schedule changes the save count (so after the join no
further write occurs), and two thread steps after the flag store the loop
has exited. -/
theorem c2_shutdown :
    (∀ acts : List Act, (loopRun acts).savesAfterStop ≤ 1) ∧
    (∀ pre post : List Act, (loopRun pre).pc = PC.done →
      (loopRun (pre ++ post)).saves = (loopRun pre).saves ∧
        (loopRun (pre ++ post)).pc = PC.done) ∧
    (∀ pre : List Act,
      (loopRun (pre ++ [Act.setStop, Act.tick, Act.tick])).pc = PC.done) := by
  refine ⟨?_, ?_, ?_⟩
  · intro acts
    exact (loopInv_foldl acts loopInit (by simp [LoopInv, loopInit])).2.2
  · intro pre post h
    simp only [loopRun, List.foldl_append] at *
    obtain ⟨hp, hs⟩ := foldl_done post _ h
    exact ⟨hs, hp⟩
  · intro pre
    simp only [loopRun, List.foldl_append]
    exact stop_two_ticks _

/-- C2 witness: concrete schedules instantiating each conjunct of the
amended shutdown theorem. -/
theorem c2_shutdown_witness :
    (loopRun [Act.tick, Act.setStop, Act.tick, Act.tick]).savesAfterStop ≤ 1 ∧
    (loopRun ([Act.setStop, Act.tick] ++ [Act.tick, Act.setStop])).saves =
      (loopRun [Act.setStop, Act.tick]).saves ∧
    (loopRun ([Act.tick] ++ [Act.setStop, Act.tick, Act.tick])).pc = PC.done :=
  ⟨c2_shutdown.1 [Act.tick, Act.setStop, Act.tick, Act.tick],
   (c2_shutdown.2.1 [Act.setStop, Act.tick] [Act.tick, Act.setStop] (by decide)).1,
   c2_shutdown.2.2 [Act.tick]⟩

/-- C2 counterexample: when the flag is set while the loop is sleeping,
the loop wakes, performs one more save, and only then observes the flag
and exits — contradicting `exits without performing another save`. -/
theorem c2_counterexample :
    (loopRun [Act.tick, Act.setStop, Act.tick, Act.tick]).pc = PC.done ∧
    (loopRun [Act.tick, Act.setStop, Act.tick, Act.tick]).savesAfterStop = 1 := by
  constructor <;> rfl

/-- C3: a two-line source holding one parsable line and one non-blank
unparsable line (in either order) loads exactly the one good record and
produces exactly one warning; the embedding returns normally, and the bad
line does not stop the loop from processing the other line. -/
theorem c3_tolerant_load (l1 l2 : List Char) (b : Book) (prior : List Book)
    (hn1 : '\n' ∉ l1) (hn2 : '\n' ∉ l2)
    (hx : (Book.deserialize (trim l1) = some b ∧ trim l2 ≠ [] ∧
            Book.deserialize (trim l2) = none) ∨
          (trim l1 ≠ [] ∧ Book.deserialize (trim l1) = none ∧
            Book.deserialize (trim l2) = some b)) :
    loadFromFile (some (l1 ++ '\n' :: (l2 ++ ['\n']))) prior = ([b], 1) := by
  show (splitCpp '\n' (l1 ++ '\n' :: (l2 ++ ['\n']))).foldl loadStep ([], 0) = _
  rw [splitCpp_append '\n' l1 _ hn1, splitCpp_append '\n' l2 [] hn2]
  rcases hx with ⟨hg, hne2, hbad⟩ | ⟨hne1, hbad, hg⟩
  · have hne1 : trim l1 ≠ [] := by
      intro h
      rw [h, deserialize_nil] at hg
      exact Option.noConfusion hg
    simp only [splitCpp, List.foldl_cons, List.foldl_nil]
    simp only [loadStep, if_neg hne1, if_neg hne2, hg, hbad]
    simp
  · have hne2 : trim l2 ≠ [] := by
      intro h
      rw [h, deserialize_nil] at hg
      exact Option.noConfusion hg
    simp only [splitCpp, List.foldl_cons, List.foldl_nil]
    simp only [loadStep, if_neg hne1, if_neg hne2, hbad, hg]
    simp

/-- C3 witness: the file `1|t|a|2|0\nx|y\n` loads the one good record and
reports one warning. -/
theorem c3_tolerant_load_witness :
    loadFromFile (some (exGood ++ '\n' :: (exBad ++ ['\n']))) [] = ([exBook3], 1) :=
  c3_tolerant_load exGood exBad exBook3 [] (by decide) (by decide)
    (Or.inl (by decide))

/-- C4: after startup loading, the next identity equals one plus the
maximum loaded identity (the `foldr max 0` is 0 on an empty load, giving
the claimed start value 1); loading identities 3, 7, 2 yields 8. -/
theorem c4_identity_seeding :
    (∀ content : Option (List Char), (libraryInit content).2.2 =
      1 + (((libraryInit content).1.map Book.id).foldr max 0)) ∧
    (libraryInit (some exDb372)).2.2 = 8 := by
  constructor
  · intro content
    simp only [libraryInit]
    exact computeNextId_eq _
  · decide

/-- C5: a save fails exactly when the sink cannot be written, and a
successful save writes every record in the store, one serialized line
with a trailing newline each, in insertion order. -/
theorem c5_save_contract (w : Bool) (r : Repository) :
    ((∃ e, saveToFile w r = Except.error e) ↔ w = false) ∧
    saveToFile true r =
      Except.ok (r, (r.items.map fun b => Book.serialize b ++ ['\n']).flatten) := by
  constructor
  · cases w <;> simp [saveToFile]
  · simp [saveToFile, saveOutput]

/-- C6: deserialization fails exactly when the split produces fewer than
five fields, or the identity field is rejected by `stoull`, or the year
field is rejected by `stoi`. -/
theorem c6_deserialize_failure (line : List Char) :
    Book.deserialize line = none ↔
      (splitCpp '|' line).length < 5 ∨
        stoull ((splitCpp '|' line).getD 0 []) = none ∨
        stoi ((splitCpp '|' line).getD 3 []) = none := by
  simp only [Book.deserialize]
  by_cases h5 : (splitCpp '|' line).length < 5
  · simp [h5]
  · rw [if_neg h5]
    cases hu : stoull ((splitCpp '|' line).getD 0 []) with
    | none => simp [h5, hu]
    | some id =>
      cases hi : stoi ((splitCpp '|' line).getD 3 []) with
      | none => simp [h5, hu, hi]
      | some y => simp [h5, hu, hi]

/-- C7 (amended): loading from an existing source is independent of the
prior store contents (they are cleared before reading), while a missing
source returns without error and leaves the prior contents — empty only
if the store was already empty. -/
theorem c7_load_semantics :
    (∀ content prior, loadFromFile (some content) prior = loadFromFile (some content) []) ∧
    (∀ prior, loadFromFile none prior = (prior, 0)) :=
  ⟨fun _ _ => rfl, fun _ => rfl⟩

/-- C7 counterexample: with a missing source and a non-empty prior store,
the store is not empty afterwards, contradicting `the store is left empty
afterwards`. -/
theorem c7_counterexample : (loadFromFile none [exBook1]).1 ≠ [] := by
  decide

/-- C8: two consecutive saves of the same store against a writable sink
produce byte-identical output. -/
theorem c8_idempotent_save (w : Bool) (r r1 r2 : Repository) (o1 o2 : List Char)
    (hs1 : saveToFile w r = Except.ok (r1, o1))
    (hs2 : saveToFile w r1 = Except.ok (r2, o2)) : o1 = o2 := by
  cases w with
  | false => simp [saveToFile] at hs1
  | true =>
    simp only [saveToFile, if_true, Except.ok.injEq, Prod.mk.injEq] at hs1 hs2
    rw [← hs1.2, ← hs2.2, ← hs1.1]

/-- C8 witness: the double-save equality instantiated on a one-record
repository. -/
theorem c8_idempotent_save_witness : saveOutput [exBook1] = saveOutput [exBook1] :=
  c8_idempotent_save true ⟨[exBook1]⟩ ⟨[exBook1]⟩ ⟨[exBook1]⟩
    (saveOutput [exBook1]) (saveOutput [exBook1]) rfl rfl

/-- C9: any line with at least five fields whose identity and year fields
are accepted by the C++ parsers deserializes successfully, ignoring fields
beyond the fifth, and is checked out exactly when the fifth field is the
string `1`. -/
theorem c9_extra_fields (line : List Char) (id : Nat) (y : Int)
    (h5 : 5 ≤ (splitCpp '|' line).length)
    (hid : stoull ((splitCpp '|' line).getD 0 []) = some id)
    (hy : stoi ((splitCpp '|' line).getD 3 []) = some y) :
    Book.deserialize line =
      some ⟨id, (splitCpp '|' line).getD 1 [], (splitCpp '|' line).getD 2 [], y,
        decide ((splitCpp '|' line).getD 4 [] = ['1'])⟩ := by
  simp only [Book.deserialize]
  rw [if_neg (by omega), hid, hy]

/-- C9 witness: a six-field line with garbage fifth field parses to a
not-checked-out record, its sixth field ignored. -/
theorem c9_extra_fields_witness :
    Book.deserialize exLine9 = some ⟨7, ( "x" ).data, ( "y" ).data, 1999, false⟩ := by
  rw [c9_extra_fields exLine9 7 1999 (by decide) (by decide) (by decide)]
  decide

/-- C10: a successful save truncates: the file afterwards is exactly the
concatenation of the current records' lines, whatever it held before, and
saving an empty store leaves an empty file. -/
theorem c10_truncating_save (prior : List Char) (r : Repository) :
    fileAfterSave prior true r =
      (r.items.map fun b => Book.serialize b ++ ['\n']).flatten ∧
    fileAfterSave prior true ⟨[]⟩ = [] := by
  constructor <;> simp [fileAfterSave, saveToFile, saveOutput]
